import Mathlib

/-
Shallow embedding of the core of the `sia` repository (Rust), covering:
  * `src/src/async_snow.rs`   — the Snow packet layer and symmetric handshake,
  * `src/src/serialization/formats.rs` — the Bincode format configuration,
  * `src/canary/src/routes.rs` — the service registry and introduction protocol.

Bytes are modelled as natural numbers, byte buffers as `List Nat`.  Fallible
operations return `Option` / `Except`.  The Noise AEAD provided by the external
`snow` crate is kept abstract as a pair of functions (`AEAD`); the properties
the library guarantees for stateless transport mode (ciphertext length is
plaintext length plus a 16-byte tag, and decryption inverts encryption) appear
as explicit hypotheses of the theorems that need them.
-/

namespace Sia

/-- Model of Rust slice `chunks`: splits a list into consecutive chunks of
length `n`, the last chunk possibly shorter; an empty list yields no chunks.
(`chunks` with `n = 0` panics in Rust and is never called that way here; the
model returns `[]` in that case.) -/
def chunksOf {α : Type} (n : Nat) (l : List α) : List (List α) :=
  match l with
  | [] => []
  | x :: xs =>
    if n = 0 then []
    else (x :: xs).take n :: chunksOf n ((x :: xs).drop n)
termination_by l.length
decreasing_by
  rename_i h
  simp [List.length_drop]
  omega

@[simp] theorem chunksOf_nil {α : Type} (n : Nat) : chunksOf n ([] : List α) = [] := by
  rw [chunksOf]

theorem chunksOf_eq_cons {α : Type} (n : Nat) (l : List α) (h0 : n ≠ 0) (hl : l ≠ []) :
    chunksOf n l = l.take n :: chunksOf n (l.drop n) := by
  match l with
  | [] => exact absurd rfl hl
  | x :: xs =>
    rw [chunksOf]
    simp [h0]

theorem chunksOf_small {α : Type} (n : Nat) (l : List α) (h0 : n ≠ 0) (hl : l ≠ [])
    (hle : l.length ≤ n) : chunksOf n l = [l] := by
  rw [chunksOf_eq_cons n l h0 hl]
  rw [List.take_of_length_le hle, List.drop_eq_nil_of_le hle]
  simp

/-- Abstract interface standing for the `snow` crate's
`StatelessTransportState` as used at nonce 0:
`writeMessage p` is the ciphertext `write_message(0, p, out)` produces, and
`readMessage c` is the payload `read_message(0, c, out)` recovers (`none` on a
cryptographic failure). -/
structure AEAD where
  writeMessage : List Nat → List Nat
  readMessage : List Nat → Option (List Nat)

/-- Constant `PACKET_LEN` from `src/src/async_snow.rs`. -/
def PACKET_LEN : Nat := 65519

namespace Snow

/-- Embedding of `Snow::encrypt_packet`: the output buffer `msg` has exactly
`buf.len() + 16` bytes and `write_message` fills all of it, so the packet is
the AEAD ciphertext of the chunk. -/
def encrypt_packet (a : AEAD) (buf : List Nat) : List Nat :=
  a.writeMessage buf

/-- Embedding of `Snow::encrypt_packets`: the plaintext is split into chunks
of at most `PACKET_LEN` bytes and the encrypted packets are concatenated. -/
def encrypt_packets (a : AEAD) (buf : List Nat) : List Nat :=
  (chunksOf PACKET_LEN buf).flatMap (encrypt_packet a)

/-- Loop body of `Snow::decrypt` over the list of ciphertext chunks: for each
chunk the code allocates a zero buffer `message` of the full chunk length,
lets `read_message` write the recovered payload into its front, and then
appends the WHOLE buffer (not just the payload length returned by
`read_message`) to the accumulated result. -/
def decryptLoop (a : AEAD) : List (List Nat) → Option (List Nat)
  | [] => some []
  | c :: cs => do
    let m ← a.readMessage c
    let rest ← decryptLoop a cs
    pure ((m ++ List.replicate (c.length - m.length) 0) ++ rest)

/-- Embedding of `Snow::decrypt`: the ciphertext is split into chunks of at
most `PACKET_LEN + 16` bytes and each chunk is processed by the loop above. -/
def decrypt (a : AEAD) (buf : List Nat) : Option (List Nat) :=
  decryptLoop a (chunksOf (PACKET_LEN + 16) buf)

end Snow

/-- Concrete AEAD instance used to evaluate the Snow layer on concrete
inputs: it appends a 16-byte zero tag and strips it again on read.  It
satisfies the two properties assumed of the snow library. -/
def idAEAD : AEAD where
  writeMessage p := p ++ List.replicate 16 0
  readMessage c := if 16 ≤ c.length then some (c.take (c.length - 16)) else none

theorem idAEAD_write_len (p : List Nat) :
    (idAEAD.writeMessage p).length = p.length + 16 := by
  simp [idAEAD]

theorem idAEAD_read_write (p : List Nat) :
    idAEAD.readMessage (idAEAD.writeMessage p) = some p := by
  simp [idAEAD]

/-- C10: `encrypt_packets` on the empty buffer emits no packet at all (in
particular no 16-byte tag), and `decrypt` on the empty buffer succeeds with
the empty plaintext, for every AEAD. -/
theorem encrypt_decrypt_empty (a : AEAD) :
    Snow.encrypt_packets a [] = [] ∧ Snow.decrypt a [] = some [] := by
  constructor
  · simp [Snow.encrypt_packets]
  · simp [Snow.decrypt, Snow.decryptLoop]

/-- C2: the round trip is NOT the identity.  For the one-byte plaintext
`[1]`, and any AEAD with the length and inversion properties of snow's
stateless transport mode, `decrypt (encrypt_packets [1])` returns the
plaintext followed by 16 extra zero bytes: `decrypt` appends the whole
zero-initialised chunk buffer instead of only the payload length returned by
`read_message`. -/
theorem decrypt_encrypt_adds_zeros (a : AEAD)
    (hlen : ∀ p, (a.writeMessage p).length = p.length + 16)
    (hinv : ∀ p, a.readMessage (a.writeMessage p) = some p) :
    Snow.decrypt a (Snow.encrypt_packets a [1]) = some ([1] ++ List.replicate 16 0) := by
  have h1 : chunksOf PACKET_LEN [1] = [[1]] := by
    apply chunksOf_small <;> simp [PACKET_LEN]
  have henc : Snow.encrypt_packets a [1] = a.writeMessage [1] := by
    simp [Snow.encrypt_packets, h1, Snow.encrypt_packet]
  have hwlen : (a.writeMessage [1]).length = 17 := by
    rw [hlen]
    rfl
  have hne : a.writeMessage [1] ≠ [] := by
    intro h
    rw [h] at hwlen
    simp at hwlen
  have h2 : chunksOf (PACKET_LEN + 16) (a.writeMessage [1]) = [a.writeMessage [1]] := by
    apply chunksOf_small
    · simp [PACKET_LEN]
    · exact hne
    · rw [hwlen]; simp [PACKET_LEN]
  rw [Snow.decrypt, henc, h2]
  simp [Snow.decryptLoop, hinv, hwlen]

/-- Witness for C2's theorem at the concrete AEAD instance `idAEAD`. -/
theorem decrypt_encrypt_adds_zeros_witness :
    Snow.decrypt idAEAD (Snow.encrypt_packets idAEAD [1]) = some ([1] ++ List.replicate 16 0) :=
  decrypt_encrypt_adds_zeros idAEAD idAEAD_write_len idAEAD_read_write

/-! ### Coin flip of `Snow::new_with_params`

Each loop iteration draws a fresh random `u64` on each side; the local draw is
sent and the peer's draw is received.  The embedding takes the sequence of
(local, peer) draw pairs as input; `none` models the loop never breaking on a
finite list of draws. -/

/-- Role a peer ends up with after the coin flip. -/
inductive Role where
  | initiator
  | responder
deriving DecidableEq

/-- Embedding of the `should_init` loop of `Snow::new_with_params`: equal
draws continue the loop; otherwise it breaks with `local_num > peer_num`. -/
def shouldInit : List (Nat × Nat) → Option Bool
  | [] => none
  | (l, p) :: rest => if l = p then shouldInit rest else some (decide (p < l))

/-- Embedding of the tail of `Snow::new_with_params`: `should_init = true`
calls `initialize_initiator`, otherwise `initialize_responder`. -/
def new_with_params_role (draws : List (Nat × Nat)) : Option Role :=
  (shouldInit draws).map (fun b => if b then Role.initiator else Role.responder)

theorem shouldInit_dropWhile (draws : List (Nat × Nat)) :
    shouldInit draws =
      ((draws.dropWhile (fun q => q.1 == q.2)).head?).map (fun q => decide (q.2 < q.1)) := by
  induction draws with
  | nil => rfl
  | cons q rest ih =>
    obtain ⟨l, p⟩ := q
    by_cases h : l = p
    · subst h
      simp [shouldInit, List.dropWhile, ih]
    · have hb : (l == p) = false := beq_eq_false_iff_ne.mpr h
      simp [shouldInit, List.dropWhile, h, hb]

theorem shouldInit_swap (draws : List (Nat × Nat)) :
    shouldInit (draws.map Prod.swap) = (shouldInit draws).map (fun b => !b) := by
  induction draws with
  | nil => rfl
  | cons q rest ih =>
    obtain ⟨l, p⟩ := q
    by_cases h : l = p
    · subst h
      simp [shouldInit, ih]
    · have h2 : p ≠ l := fun hc => h hc.symm
      rcases Nat.lt_or_ge p l with hlt | hge
      · have hnlt : ¬ l < p := Nat.not_lt.mpr (Nat.le_of_lt hlt)
        simp [shouldInit, h, h2, hlt, hnlt]
      · have hlp : l < p := Nat.lt_of_le_of_ne hge h2.symm
        have hnpl : ¬ p < l := Nat.not_lt.mpr hge
        simp [shouldInit, h, h2, hlp, hnpl]

/-- C7: the role is decided by the first pair of distinct draws — ties are
skipped and redrawn (`dropWhile` of the equal pairs), and on the first unequal
pair the strictly greater local value yields the initiator and the strictly
smaller one the responder.  Moreover the decision is antisymmetric between
the two peers: swapping every (local, peer) pair flips the role, so exactly
one side becomes initiator and the other responder. -/
theorem coin_flip_decides_roles (draws : List (Nat × Nat)) :
    new_with_params_role draws =
      ((draws.dropWhile (fun q => q.1 == q.2)).head?).map
        (fun q => if q.2 < q.1 then Role.initiator else Role.responder)
    ∧ new_with_params_role (draws.map Prod.swap) =
      (new_with_params_role draws).map
        (fun r => if r = Role.initiator then Role.responder else Role.initiator) := by
  constructor
  · rw [new_with_params_role, shouldInit_dropWhile, Option.map_map]
    congr 1
    funext q
    by_cases h : q.2 < q.1 <;> simp [h]
  · rw [new_with_params_role, new_with_params_role, shouldInit_swap, Option.map_map,
      Option.map_map]
    congr 1
    funext b
    cases b <;> rfl

/-! ### Bincode format configuration

`impl SendFormat for Bincode` and `impl ReadFormat for Bincode` in
`src/src/serialization/formats.rs` serialize and deserialize through
`bincode::DefaultOptions::new().allow_trailing_bytes()`.  In bincode 1.3,
`DefaultOptions` means: no byte limit, little-endian byte order, and VARINT
integer encoding; the explicit `allow_trailing_bytes` call makes
deserialization ignore bytes after a complete value.  The definitions below
embed that encoding for a `u64` value: an unsigned value below 251 is a
single byte; below 2^16 it is the marker 251 followed by 2 little-endian
bytes; below 2^32 the marker 252 followed by 4 bytes; otherwise the marker
253 followed by 8 bytes. -/

namespace Bincode

/-- Little-endian byte decomposition, `n` bytes. -/
def toLE : Nat → Nat → List Nat
  | 0, _ => []
  | n + 1, v => (v % 256) :: toLE n (v / 256)

/-- Little-endian byte recomposition. -/
def fromLE : List Nat → Nat
  | [] => 0
  | b :: rest => b + 256 * fromLE rest

@[simp] theorem toLE_length (n v : Nat) : (toLE n v).length = n := by
  induction n generalizing v with
  | zero => rfl
  | succ k ih => simp [toLE, ih]

theorem fromLE_toLE (n v : Nat) (h : v < 256 ^ n) : fromLE (toLE n v) = v := by
  induction n generalizing v with
  | zero =>
    simp [toLE, fromLE]
    omega
  | succ k ih =>
    rw [toLE, fromLE]
    have hdiv : v / 256 < 256 ^ k := by
      rw [pow_succ] at h
      omega
    rw [ih (v / 256) hdiv]
    omega

/-- Serialization of a `u64` under `bincode::DefaultOptions` with
`allow_trailing_bytes`, as invoked by `impl SendFormat for Bincode`. -/
def serializeU64 (v : Nat) : List Nat :=
  if v < 251 then [v]
  else if v < 2 ^ 16 then 251 :: toLE 2 v
  else if v < 2 ^ 32 then 252 :: toLE 4 v
  else 253 :: toLE 8 v

/-- Deserialization of a `u64` under `bincode::DefaultOptions` with
`allow_trailing_bytes`, as invoked by `impl ReadFormat for Bincode`: the
marker byte selects the width, the required bytes are consumed, and any
remaining bytes are ignored. -/
def deserializeU64 : List Nat → Option Nat
  | [] => none
  | b :: rest =>
    if b < 251 then some b
    else if b = 251 then
      if 2 ≤ rest.length then some (fromLE (rest.take 2)) else none
    else if b = 252 then
      if 4 ≤ rest.length then some (fromLE (rest.take 4)) else none
    else if b = 253 then
      if 8 ≤ rest.length then some (fromLE (rest.take 8)) else none
    else none

/-- C5 counterexample: serializing the `u64` value 0 yields the single byte
`[0]` — one byte of payload, not the 8 bytes that fixed-width (non-varint)
encoding would produce. -/
theorem serializeU64_zero_one_byte :
    serializeU64 0 = [0] ∧ (serializeU64 0).length ≠ 8 := by
  constructor <;> simp [serializeU64]

theorem take_append_of_length {α : Type} (l extra : List α) (n : Nat) (h : l.length = n) :
    (l ++ extra).take n = l := by
  subst h
  simp

/-- C5 amended: the Bincode configuration is little-endian with VARINT
encoding enabled and trailing bytes allowed.  For every `u64` value: the
encoding takes between 1 and 9 bytes (a single byte for values below 251);
multi-byte bodies are little-endian (shown for the 2-byte case); and
deserialization recovers the value even when arbitrary extra bytes follow
the encoding. -/
theorem bincode_u64_varint_roundtrip (v : Nat) (h : v < 2 ^ 64) (extra : List Nat) :
    deserializeU64 (serializeU64 v ++ extra) = some v
    ∧ 1 ≤ (serializeU64 v).length ∧ (serializeU64 v).length ≤ 9
    ∧ (251 ≤ v → v < 2 ^ 16 → serializeU64 v = [251, v % 256, v / 256 % 256]) := by
  rcases Nat.lt_or_ge v 251 with h1 | h1
  · have hv : serializeU64 v = [v] := by simp [serializeU64, h1]
    refine ⟨?_, ?_, ?_, ?_⟩
    · rw [hv]
      simp [deserializeU64, h1]
    · rw [hv]; simp
    · rw [hv]; simp
    · intro hc
      omega
  · rcases Nat.lt_or_ge v (2 ^ 16) with h2 | h2
    · have hv : serializeU64 v = 251 :: toLE 2 v := by
        rw [serializeU64, if_neg (by omega), if_pos h2]
      refine ⟨?_, ?_, ?_, ?_⟩
      · rw [hv]
        rw [List.cons_append, deserializeU64]
        have htk : (toLE 2 v ++ extra).take 2 = toLE 2 v :=
          take_append_of_length _ _ _ (toLE_length 2 v)
        simp [htk, fromLE_toLE 2 v h2]
      · rw [hv]; simp
      · rw [hv]; simp
      · intro _ _
        rw [hv]
        simp [toLE]
    · rcases Nat.lt_or_ge v (2 ^ 32) with h3 | h3
      · have hv : serializeU64 v = 252 :: toLE 4 v := by
          rw [serializeU64, if_neg (by omega), if_neg (by omega), if_pos h3]
        refine ⟨?_, ?_, ?_, ?_⟩
        · rw [hv]
          rw [List.cons_append, deserializeU64]
          have htk : (toLE 4 v ++ extra).take 4 = toLE 4 v :=
            take_append_of_length _ _ _ (toLE_length 4 v)
          simp [htk, fromLE_toLE 4 v h3]
        · rw [hv]; simp
        · rw [hv]; simp
        · intro _ hc
          omega
      · have hv : serializeU64 v = 253 :: toLE 8 v := by
          rw [serializeU64]
          rw [if_neg (by omega), if_neg (by omega), if_neg (by omega)]
        refine ⟨?_, ?_, ?_, ?_⟩
        · rw [hv]
          rw [List.cons_append, deserializeU64]
          have htk : (toLE 8 v ++ extra).take 8 = toLE 8 v :=
            take_append_of_length _ _ _ (toLE_length 8 v)
          have h64 : v < 256 ^ 8 := by
            have : (256 : Nat) ^ 8 = 2 ^ 64 := by norm_num
            omega
          simp [htk, fromLE_toLE 8 v h64]
        · rw [hv]; simp
        · rw [hv]; simp
        · intro _ hc
          omega

/-- Witness for C5's amended theorem at `v = 300` with trailing byte `9`. -/
theorem bincode_u64_varint_roundtrip_witness :
    deserializeU64 (serializeU64 300 ++ [9]) = some 300 :=
  (bincode_u64_varint_roundtrip 300 (by norm_num) [9]).1

end Bincode

/-! ### Service registry and introduction protocol (`src/canary/src/routes.rs`)

The inner map of a `Route` is a `DashMap<RouteKey, Storable>`; it is modelled
as an association list with unique keys.  A stored `Svc` handler is opaque to
the registry, so it is modelled by a numeric identifier.  `DashMap::insert`
always stores the new value and returns the value previously present, which
is exactly what the model's `dashInsert` does. -/

/-- Model of `Storable`: an entry of the route map is either a sub-route
(its own map of entries) or a service handler. -/
inductive Storable where
  | service (svc : Nat)
  | route (entries : List (String × Storable))

/-- A `Route` is its inner `DashMap`, modelled as an association list. -/
abbrev Route := List (String × Storable)

/-- Model of `DashMap::get`. -/
def dashGet (k : String) : Route → Option Storable
  | [] => none
  | (k2, v) :: rest => if k = k2 then some v else dashGet k rest

/-- Model of `DashMap::insert`: the new value is ALWAYS stored; the previous
value at the key, if any, is returned. -/
def dashInsert (k : String) (v : Storable) : Route → Option Storable × Route
  | [] => (none, [(k, v)])
  | (k2, v2) :: rest =>
    if k = k2 then (some v2, (k, v) :: rest)
    else
      let r := dashInsert k v rest
      (r.1, (k2, v2) :: r.2)

/-- Error kinds of the `err!` macro relevant to the modelled functions. -/
inductive ErrKind where
  | in_use
  | not_found
  | invalid_data
  | other
deriving DecidableEq

/-- Embedding of `Route::add_service_at`: insert into the `DashMap`, report
`in_use` when a previous value was returned. -/
def add_service_at (r : Route) (key : String) (svc : Nat) : Except ErrKind Unit × Route :=
  let res := dashInsert key (Storable.service svc) r
  match res.1 with
  | some _ => (Except.error ErrKind.in_use, res.2)
  | none => (Except.ok (), res.2)

/-- Embedding of `Route::add_route_at`: insert into the `DashMap`, report
`in_use` when a previous value was returned. -/
def add_route_at (r : Route) (key : String) (sub : Route) : Except ErrKind Unit × Route :=
  let res := dashInsert key (Storable.route sub) r
  match res.1 with
  | some _ => (Except.error ErrKind.in_use, res.2)
  | none => (Except.ok (), res.2)

/-- C3: calling `add_service_at` (or `add_route_at`) on an occupied key does
return an `in_use` error, but the mapping does NOT stay unchanged: the insert
has already replaced the stored entry with the new one, because
`DashMap::insert` overwrites before the old value is inspected. -/
theorem add_at_in_use_overwrites :
    (add_service_at [("x", Storable.service 1)] "x" 2).1 = Except.error ErrKind.in_use
    ∧ dashGet "x" (add_service_at [("x", Storable.service 1)] "x" 2).2
        = some (Storable.service 2)
    ∧ (add_route_at [("x", Storable.service 1)] "x" []).1 = Except.error ErrKind.in_use
    ∧ dashGet "x" (add_route_at [("x", Storable.service 1)] "x" []).2
        = some (Storable.route [])
    ∧ Storable.service 2 ≠ Storable.service 1 := by
  refine ⟨rfl, rfl, rfl, rfl, ?_⟩
  intro h
  injection h with h2
  omega

/-- Model of the `Status` reply enum (`Found = 1`, `NotFound = 2`). -/
inductive Status where
  | found
  | notFound
deriving DecidableEq

/-- Observable actions of the introduction routine on a channel: a status
reply written to the wire, or the dispatch of a handler (which hands the
channel to the service). -/
inductive Event where
  | sent (s : Status)
  | dispatched (svc : Nat)
deriving DecidableEq

/-- Embedding of the `loop` of `Route::__introduce_inner_static`: at each
iteration the next path segment is taken (exhaustion is a `not_found` error),
looked up in the current map (absence is a `not_found` error); a sub-route
continues the loop and a service handler is dispatched after the `Found`
status is written — any remaining segments are dropped. -/
def walk : Route → List String → List Event × Option ErrKind
  | _, [] => ([], some ErrKind.not_found)
  | map, next :: rest =>
    match dashGet next map with
    | none => ([], some ErrKind.not_found)
    | some (Storable.service f) => ([Event.sent Status.found, Event.dispatched f], none)
    | some (Storable.route r2) => walk r2 rest

/-- Embedding of `Route::__introduce_inner_static`: an empty segment list is
an `invalid_data` error; a first segment absent from the root map is an
`invalid_data` error; a first-segment service handler is dispatched after the
`Found` status is written (remaining segments dropped); a first-segment
sub-route enters the loop. -/
def introduce_inner (root : Route) : List String → List Event × Option ErrKind
  | [] => ([], some ErrKind.invalid_data)
  | first :: rest =>
    match dashGet first root with
    | none => ([], some ErrKind.invalid_data)
    | some (Storable.service f) => ([Event.sent Status.found, Event.dispatched f], none)
    | some (Storable.route r2) => walk r2 rest

/-- Embedding of `Route::introduce_service_static`: on an inner error the
`NotFound` status is written to the channel and the error is returned. -/
def introduce_service_static (root : Route) (segs : List String) :
    List Event × Option ErrKind :=
  match introduce_inner root segs with
  | (tr, none) => (tr, none)
  | (tr, some e) => (tr ++ [Event.sent Status.notFound], some e)

/-- Specification-level resolution relation, following the words of the spec:
the path walks from the root through sub-routes and reaches a registered
handler.  The walk of the code drops segments remaining after a handler is
reached, so the relation holds for any tail `rest`. -/
inductive LeadsTo : Route → List String → Nat → Prop where
  | svc {r : Route} {s : String} {rest : List String} {f : Nat}
      (h : dashGet s r = some (Storable.service f)) : LeadsTo r (s :: rest) f
  | sub {r : Route} {r2 : Route} {s : String} {rest : List String} {f : Nat}
      (h : dashGet s r = some (Storable.route r2)) (h2 : LeadsTo r2 rest f) :
      LeadsTo r (s :: rest) f

theorem walk_dispatch {map : Route} {segs : List String} {f : Nat}
    (h : LeadsTo map segs f) :
    walk map segs = ([Event.sent Status.found, Event.dispatched f], none) := by
  induction h with
  | svc hg => simp [walk, hg]
  | sub hg h2 ih => simp [walk, hg, ih]

theorem walk_fail {segs : List String} {map : Route}
    (h : ∀ f, ¬ LeadsTo map segs f) :
    walk map segs = ([], some ErrKind.not_found) := by
  induction segs generalizing map with
  | nil => rfl
  | cons s rest ih =>
    cases hg : dashGet s map with
    | none => simp [walk, hg]
    | some v =>
      cases v with
      | service f => exact absurd (LeadsTo.svc hg) (h f)
      | route r2 =>
        rw [walk]
        simp only [hg]
        apply ih
        intro f hf
        exact h f (LeadsTo.sub hg hf)

/-- C8: on the empty path the introduction routine writes `NotFound` on the
wire and returns an `invalid_data` error, for every root route: the whole
channel transcript is the single `NotFound` status write, so in particular no
handler is dispatched. -/
theorem empty_path_notfound_invalid_data (root : Route) :
    introduce_service_static root []
      = ([Event.sent Status.notFound], some ErrKind.invalid_data) := rfl

/-- C4 counterexample: with the handler `7` registered at `"a"`, the path
`"a/b"` still has the segment `"b"` remaining after reaching the handler,
yet the routine replies `Found` and dispatches handler `7` — the client does
not observe `NotFound`. -/
theorem trailing_segments_still_dispatch :
    introduce_service_static [("a", Storable.service 7)] ["a", "b"]
      = ([Event.sent Status.found, Event.dispatched 7], none)
    ∧ Event.sent Status.notFound
        ∉ (introduce_service_static [("a", Storable.service 7)] ["a", "b"]).1 := by
  constructor
  · rfl
  · intro h
    simp [introduce_service_static, introduce_inner, dashGet] at h

/-- C4 amended: a path whose segments walk through sub-routes and reach a
registered handler — with possibly further segments remaining at that point —
makes the routine reply `Found` and dispatch exactly that handler; every
other nonempty path makes the client observe `NotFound` (and an error is
returned to the caller). -/
theorem introduction_path_resolution (r : Route) (p : List String) :
    (∀ f, LeadsTo r p f →
      introduce_service_static r p = ([Event.sent Status.found, Event.dispatched f], none))
    ∧ (p ≠ [] → (∀ f, ¬ LeadsTo r p f) →
      introduce_service_static r p = ([Event.sent Status.notFound], some ErrKind.invalid_data)
      ∨ introduce_service_static r p
        = ([Event.sent Status.notFound], some ErrKind.not_found)) := by
  constructor
  · intro f h
    cases h with
    | svc hg => simp [introduce_service_static, introduce_inner, hg]
    | sub hg h2 =>
      have hw := walk_dispatch h2
      simp [introduce_service_static, introduce_inner, hg, hw]
  · intro hne h
    match p with
    | [] => exact absurd rfl hne
    | s :: rest =>
      cases hg : dashGet s r with
      | none =>
        exact Or.inl (by simp [introduce_service_static, introduce_inner, hg])
      | some v =>
        cases v with
        | service f => exact absurd (LeadsTo.svc hg) (h f)
        | route r2 =>
          have hw : walk r2 rest = ([], some ErrKind.not_found) := by
            apply walk_fail
            intro f hf
            exact h f (LeadsTo.sub hg hf)
          exact Or.inr (by simp [introduce_service_static, introduce_inner, hg, hw])

/-- Concrete two-level route used by the witnesses: a sub-route `"math"`
containing the handler `3` at `"add"`. -/
def demoRoute : Route := [("math", Storable.route [("add", Storable.service 3)])]

theorem demoRoute_no_handler_at_math (f : Nat) : ¬ LeadsTo demoRoute ["math"] f := by
  intro h
  cases h with
  | svc hg => simp [dashGet, demoRoute] at hg
  | sub hg h2 =>
    cases h2

/-- Witness for C4's amended theorem: the path `"math/add"` dispatches
handler `3` with a `Found` reply, and the path `"math"` (ending at the
sub-route) yields a `NotFound` reply. -/
theorem introduction_path_resolution_witness :
    introduce_service_static demoRoute ["math", "add"]
      = ([Event.sent Status.found, Event.dispatched 3], none)
    ∧ (introduce_service_static demoRoute ["math"]
        = ([Event.sent Status.notFound], some ErrKind.invalid_data)
      ∨ introduce_service_static demoRoute ["math"]
        = ([Event.sent Status.notFound], some ErrKind.not_found)) := by
  constructor
  · exact (introduction_path_resolution demoRoute ["math", "add"]).1 3
      (LeadsTo.sub rfl (LeadsTo.svc rfl))
  · exact (introduction_path_resolution demoRoute ["math"]).2 (by simp)
      demoRoute_no_handler_at_math

/-- C6 counterexample: for the single-segment path `"missing"` on an empty
root route the wire reply is `NotFound`, but the server-side error kind is
`invalid_data`, not `not_found`. -/
theorem first_segment_miss_invalid_data :
    introduce_service_static [] ["missing"]
      = ([Event.sent Status.notFound], some ErrKind.invalid_data)
    ∧ ErrKind.invalid_data ≠ ErrKind.not_found := by
  exact ⟨rfl, by decide⟩

/-- C6 amended: every nonempty path that does not resolve to a handler makes
`introduce_service_static` write `NotFound` on the channel and return an
error; the error kind is `invalid_data` when the first segment is absent
from the root map, and `not_found` when the failure occurs past the first
segment (a missing deeper segment, or segments ending at a sub-route). -/
theorem resolution_failure_reply_kinds (r : Route) (s : String) (rest : List String) :
    (dashGet s r = none →
      introduce_service_static r (s :: rest)
        = ([Event.sent Status.notFound], some ErrKind.invalid_data))
    ∧ (∀ r2, dashGet s r = some (Storable.route r2) → (∀ f, ¬ LeadsTo r (s :: rest) f) →
      introduce_service_static r (s :: rest)
        = ([Event.sent Status.notFound], some ErrKind.not_found)) := by
  constructor
  · intro hg
    simp [introduce_service_static, introduce_inner, hg]
  · intro r2 hg h
    have hw : walk r2 rest = ([], some ErrKind.not_found) := by
      apply walk_fail
      intro f hf
      exact h f (LeadsTo.sub hg hf)
    simp [introduce_service_static, introduce_inner, hg, hw]

theorem demoRoute_no_handler_at_math_zzz (f : Nat) :
    ¬ LeadsTo demoRoute ["math", "zzz"] f := by
  intro h
  cases h with
  | svc hg => simp [dashGet, demoRoute] at hg
  | sub hg h2 =>
    simp [dashGet, demoRoute] at hg
    subst hg
    cases h2 with
    | svc hg2 => simp [dashGet] at hg2
    | sub hg2 h3 => simp [dashGet] at hg2

/-- Witness for C6's amended theorem: a first-segment miss yields
`invalid_data`, and a deeper miss (`"math/zzz"`) yields `not_found`. -/
theorem resolution_failure_reply_kinds_witness :
    introduce_service_static [] ["missing"]
      = ([Event.sent Status.notFound], some ErrKind.invalid_data)
    ∧ introduce_service_static demoRoute ["math", "zzz"]
      = ([Event.sent Status.notFound], some ErrKind.not_found) := by
  constructor
  · exact (resolution_failure_reply_kinds [] "missing" []).1 rfl
  · exact (resolution_failure_reply_kinds demoRoute "math" ["zzz"]).2
      [("add", Storable.service 3)] rfl demoRoute_no_handler_at_math_zzz

theorem walk_transcript_shape (segs : List String) (map : Route) :
    (walk map segs).1 = [] ∨
    ∃ g, walk map segs = ([Event.sent Status.found, Event.dispatched g], none) := by
  induction segs generalizing map with
  | nil => exact Or.inl rfl
  | cons s rest ih =>
    cases hg : dashGet s map with
    | none => left; simp [walk, hg]
    | some v =>
      cases v with
      | service f => right; exact ⟨f, by simp [walk, hg]⟩
      | route r2 =>
        have := ih r2
        rw [walk]
        simp only [hg]
        exact this

theorem inner_transcript_shape (r : Route) (p : List String) :
    (introduce_inner r p).1 = [] ∨
    ∃ g, introduce_inner r p = ([Event.sent Status.found, Event.dispatched g], none) := by
  match p with
  | [] => exact Or.inl rfl
  | s :: rest =>
    cases hg : dashGet s r with
    | none => left; simp [introduce_inner, hg]
    | some v =>
      cases v with
      | service f => right; exact ⟨f, by simp [introduce_inner, hg]⟩
      | route r2 =>
        have := walk_transcript_shape rest r2
        rw [introduce_inner]
        simp only [hg]
        exact this

/-- C9: whenever the introduction routine dispatches a handler, its channel
transcript is exactly the `Found` status write followed by the dispatch: the
status reply is written (and its write awaited) strictly before the handler
is invoked with the channel, so the reply precedes anything the handler
writes. -/
theorem status_sent_before_dispatch (r : Route) (p : List String) (f : Nat)
    (h : Event.dispatched f ∈ (introduce_service_static r p).1) :
    (introduce_service_static r p).1 = [Event.sent Status.found, Event.dispatched f] := by
  rcases hinner : introduce_inner r p with ⟨tr, res⟩
  rcases inner_transcript_shape r p with hsh | ⟨g, hsh⟩
  · rw [hinner] at hsh
    simp at hsh
    subst hsh
    cases res with
    | none =>
      rw [introduce_service_static, hinner] at h
      simp at h
    | some e =>
      rw [introduce_service_static, hinner] at h
      simp at h
  · rw [hinner] at hsh
    injection hsh with h1 h2
    subst h1
    subst h2
    rw [introduce_service_static, hinner] at h ⊢
    simp at h ⊢
    simp [h]

/-- Witness for C9's theorem: handler `5` registered at `"a"`, path `"a"`. -/
theorem status_sent_before_dispatch_witness :
    (introduce_service_static [("a", Storable.service 5)] ["a"]).1
      = [Event.sent Status.found, Event.dispatched 5] :=
  status_sent_before_dispatch [("a", Storable.service 5)] ["a"] 5
    (by simp [introduce_service_static, introduce_inner, dashGet])

/-! ### Channel rendezvous of the Snow handshake (`src/src/async_snow.rs`)

After the coin flip, the winning peer runs `initialize_initiator` and the
other runs `initialize_responder`.  Only the order of channel operations
matters for whether both constructors can return, so each function is
abstracted to its sequence of sends and receives on the channel:

`initialize_initiator` (lines 105–137): send the public key (line 113),
receive the peer public key (line 115), send the first handshake message
(line 124), receive the handshake reply (line 125) — `[send, recv, send,
recv]`.

`initialize_responder` (lines 140–166): receive a message (line 147), send
the handshake reply (line 158) — `[recv, send]`.  The responder never sends
its public key and performs no further receive.

Sends are buffered (asynchronous); a receive blocks until a message from the
peer is available.  A configuration records the remaining actions of both
peers and the number of in-flight messages in each direction. -/

/-- A channel action of one peer. -/
inductive Act where
  | send
  | recv
deriving DecidableEq

/-- Channel actions of `Snow::initialize_initiator`, in program order. -/
def initiatorActs : List Act := [Act.send, Act.recv, Act.send, Act.recv]

/-- Channel actions of `Snow::initialize_responder`, in program order. -/
def responderActs : List Act := [Act.recv, Act.send]

/-- A configuration of the two peers: remaining actions of the initiator and
of the responder, and the number of in-flight messages from the initiator to
the responder and back. -/
structure Config where
  initRest : List Act
  respRest : List Act
  toResp : Nat
  toInit : Nat
deriving DecidableEq

/-- Interleaving semantics of the two peers on the connected channel: a send
enqueues a message towards the other peer; a receive consumes a previously
sent message and blocks while none is available. -/
inductive Step : Config → Config → Prop where
  | initSend (as bs : List Act) (ab ba : Nat) :
      Step ⟨Act.send :: as, bs, ab, ba⟩ ⟨as, bs, ab + 1, ba⟩
  | respSend (as bs : List Act) (ab ba : Nat) :
      Step ⟨as, Act.send :: bs, ab, ba⟩ ⟨as, bs, ab, ba + 1⟩
  | initRecv (as bs : List Act) (ab ba : Nat) :
      Step ⟨Act.recv :: as, bs, ab, ba + 1⟩ ⟨as, bs, ab, ba⟩
  | respRecv (as bs : List Act) (ab ba : Nat) :
      Step ⟨as, Act.recv :: bs, ab + 1, ba⟩ ⟨as, bs, ab, ba⟩

/-- Conserved quantity of every step: messages still to arrive at the
initiator plus sends the responder has yet to perform, plus one, equal the
receives the initiator has yet to perform. -/
def Inv (c : Config) : Prop :=
  c.toInit + c.respRest.count Act.send + 1 = c.initRest.count Act.recv

theorem inv_step {c d : Config} (h : Step c d) (hc : Inv c) : Inv d := by
  cases h <;> simp [Inv, List.count_cons] at hc ⊢ <;> omega

theorem inv_reachable {c d : Config} (h : Relation.ReflTransGen Step c d) (hc : Inv c) :
    Inv d := by
  induction h with
  | refl => exact hc
  | tail _ hstep ih => exact inv_step hstep ih

/-- C1: the two constructors can never both run to completion.  The
initiator performs two receives but the responder performs only one send (it
never sends its public key back), so no interleaving of the two peers
reaches a configuration in which both action lists are exhausted: the
initiator's second receive blocks forever and the transport states are never
both established, let alone convergent. -/
theorem handshake_cannot_complete (ab ba : Nat) :
    Relation.ReflTransGen Step ⟨initiatorActs, responderActs, 0, 0⟩ ⟨[], [], ab, ba⟩
      = False := by
  apply eq_false
  intro h
  have h0 : Inv ⟨initiatorActs, responderActs, 0, 0⟩ := by
    simp [Inv, initiatorActs, responderActs]
  have h1 := inv_reachable h h0
  simp [Inv] at h1

end Sia
